import Mathlib

/-
Verification of `src/Scalers.py`: a family of data-standardization classes
(MinMaxStandardizer, NormalStandardizer, RobustStandardizer, NoneStandardizer)
over numpy 2-D arrays, all deriving from AbsStandardizer.

Shallow embedding choices:
- a numpy 2-D array of shape (m, n) is `Mat m n := Fin m → Fin n → ℚ`
  (rationals stand in for IEEE floats; every arithmetic operation in the
  source is exact affine arithmetic apart from `np.std`, whose square root
  is modelled in `ℝ`);
- the keyword-argument dictionary `data_to_stadnardize` is a partial map
  `Store := String → Option RawArr`, where `RawArr` packages an array with
  its shape; a Python `KeyError` is `Option.none`;
- each class is a structure holding its construction input; the values the
  constructor caches (`_params`, `self.data`) are recovered as functions of
  that input, which computes the same values;
- `NoneStandardizer.normalize(*args)` is variadic over arbitrary Python
  values, so its arguments are modelled as `List PyVal` and its result
  (the argument tuple) as `PyVal.tuple`.
-/

namespace Scalers

/-- A numpy 2-D array with `m` rows (observations) and `n` columns (features). -/
abbrev Mat (m n : ℕ) : Type := Fin m → Fin n → ℚ

/-- A numpy 2-D array of real numbers (outputs of the z-score transform). -/
abbrev RMat (m n : ℕ) : Type := Fin m → Fin n → ℝ

/-- A 2-D array packaged with its shape, as stored in a Python dict. -/
structure RawArr where
  rows : ℕ
  cols : ℕ
  entry : Mat rows cols

/-- The keyword dictionary `data_to_stadnardize`: a partial map from names
to arrays. A missing key is `none` (Python raises `KeyError`). -/
abbrev Store : Type := String → Option RawArr

/-- Column `j` of an array, listed in row order (axis 0 of numpy). -/
def col {m n : ℕ} (A : Mat m n) (j : Fin n) : List ℚ :=
  List.ofFn fun i => A i j

/-- `numpy.min` of a list of values (0 on the empty list, where numpy
raises instead; no claim touches the empty case). -/
def vmin : List ℚ → ℚ
  | [] => 0
  | x :: xs => xs.foldl min x

/-- `numpy.max` of a list of values (0 on the empty list). -/
def vmax : List ℚ → ℚ
  | [] => 0
  | x :: xs => xs.foldl max x

/-- `numpy.mean` of a list of values: sum divided by length. -/
def vmean (l : List ℚ) : ℚ := l.sum / l.length

/-- `value.min(axis=0)`: column-wise minimum. -/
def colMin {m n : ℕ} (A : Mat m n) (j : Fin n) : ℚ := vmin (col A j)

/-- `value.max(axis=0)`: column-wise maximum. -/
def colMax {m n : ℕ} (A : Mat m n) (j : Fin n) : ℚ := vmax (col A j)

/-- `value.mean(axis=0)`: column-wise arithmetic mean. -/
def colMean {m n : ℕ} (A : Mat m n) (j : Fin n) : ℚ := vmean (col A j)

/-! ### MinMaxStandardizer -/

/-- `MinMaxStandardizer`: holds the construction input `**data_to_stadnardize`. -/
structure MinMaxStandardizer where
  data_to_stadnardize : Store

namespace MinMaxStandardizer

/-- The parameter record `self._params[key] = {"min": ..., "max": ...}`
computed by `init_normalization`; `none` when `key` was not registered. -/
def params (s : MinMaxStandardizer) (k : String) :
    Option ((n : ℕ) × ((Fin n → ℚ) × (Fin n → ℚ))) :=
  (s.data_to_stadnardize k).map fun v =>
    ⟨v.cols, (colMin v.entry, colMax v.entry)⟩

/-- `self.data[key] = (value - data_min) / (data_max - data_min)` computed by
`init_normalization`, i.e. what `__getitem__` returns. -/
def lookup (s : MinMaxStandardizer) (k : String) : Option RawArr :=
  (s.data_to_stadnardize k).map fun v =>
    ⟨v.rows, v.cols, fun i j =>
      (v.entry i j - colMin v.entry j) / (colMax v.entry j - colMin v.entry j)⟩

/-- `normalize(data, key)`: `(data - min) / (max - min)` with the cached
parameters for `key`; `none` on an unknown key (`KeyError`) and on a column
count that the broadcast cannot align. -/
def normalize (s : MinMaxStandardizer) {p q : ℕ} (x : Mat p q) (k : String) :
    Option (Mat p q) :=
  match s.params k with
  | none => none
  | some ⟨n, (mn, mx)⟩ =>
    if h : q = n then
      some fun i j =>
        (x i j - mn (Fin.cast h j)) / (mx (Fin.cast h j) - mn (Fin.cast h j))
    else none

/-- `denormalize(data, key)`: `data * (max - min) + min` with the cached
parameters for `key`; `none` on an unknown key. -/
def denormalize (s : MinMaxStandardizer) {p q : ℕ} (y : Mat p q) (k : String) :
    Option (Mat p q) :=
  match s.params k with
  | none => none
  | some ⟨n, (mn, mx)⟩ =>
    if h : q = n then
      some fun i j =>
        y i j * (mx (Fin.cast h j) - mn (Fin.cast h j)) + mn (Fin.cast h j)
    else none

end MinMaxStandardizer

/-! ### NormalStandardizer (z-score) -/

/-- `value.std(axis=0)` squares: the column-wise population variance
(numpy default `ddof = 0`, i.e. mean of squared deviations). -/
def colVar {m n : ℕ} (A : Mat m n) (j : Fin n) : ℚ :=
  vmean ((col A j).map fun x => (x - colMean A j) ^ 2)

/-- `value.std(axis=0)`: square root of the population variance. -/
noncomputable def colStd {m n : ℕ} (A : Mat m n) (j : Fin n) : ℝ :=
  Real.sqrt (colVar A j)

/-- Cast a rational array to a real array (floats fed to real arithmetic). -/
def toR {m n : ℕ} (A : Mat m n) : RMat m n := fun i j => (A i j : ℝ)

/-- A real-valued 2-D array packaged with its shape. -/
structure RRawArr where
  rows : ℕ
  cols : ℕ
  entry : RMat rows cols

/-- `NormalStandardizer`: holds the construction input. -/
structure NormalStandardizer where
  data_to_stadnardize : Store

namespace NormalStandardizer

/-- The parameter record `{"mean": ..., "std": ...}` computed by
`init_normalization`. -/
noncomputable def params (s : NormalStandardizer) (k : String) :
    Option ((n : ℕ) × ((Fin n → ℚ) × (Fin n → ℝ))) :=
  (s.data_to_stadnardize k).map fun v =>
    ⟨v.cols, (colMean v.entry, colStd v.entry)⟩

/-- `self.data[key] = (value - data_mean) / data_std`. -/
noncomputable def lookup (s : NormalStandardizer) (k : String) : Option RRawArr :=
  (s.data_to_stadnardize k).map fun v =>
    ⟨v.rows, v.cols, fun i j =>
      ((v.entry i j : ℝ) - (colMean v.entry j : ℝ)) / colStd v.entry j⟩

/-- `normalize(data, key) = (data - mean) / std`. -/
noncomputable def normalize (s : NormalStandardizer) {p q : ℕ} (x : RMat p q)
    (k : String) : Option (RMat p q) :=
  match s.params k with
  | none => none
  | some ⟨n, (mu, sd)⟩ =>
    if h : q = n then
      some fun i j => (x i j - (mu (Fin.cast h j) : ℝ)) / sd (Fin.cast h j)
    else none

/-- `denormalize(data, key) = data * std + mean`. -/
noncomputable def denormalize (s : NormalStandardizer) {p q : ℕ} (y : RMat p q)
    (k : String) : Option (RMat p q) :=
  match s.params k with
  | none => none
  | some ⟨n, (mu, sd)⟩ =>
    if h : q = n then
      some fun i j => y i j * sd (Fin.cast h j) + (mu (Fin.cast h j) : ℝ)
    else none

end NormalStandardizer

/-! ### RobustStandardizer -/

/-- `np.quantile(l, p)` with the default linear interpolation: with the data
sorted ascending and `h = p * (len - 1)`, interpolate linearly between the
entries at positions `⌊h⌋` and `⌊h⌋ + 1`. -/
def quantile (p : ℚ) (l : List ℚ) : ℚ :=
  let s := l.insertionSort (· ≤ ·)
  let h : ℚ := p * ((l.length : ℚ) - 1)
  let i : ℕ := ⌊h⌋.toNat
  let g : ℚ := h - (i : ℚ)
  let a := s.getD i 0
  let b := s.getD (i + 1) a
  a + g * (b - a)

/-- `np.median(l)`: the middle entry of the sorted data for odd length, the
mean of the two middle entries for even length. -/
def medianList (l : List ℚ) : ℚ :=
  let s := l.insertionSort (· ≤ ·)
  let n := l.length
  if n % 2 = 1 then s.getD (n / 2) 0
  else (s.getD (n / 2 - 1) 0 + s.getD (n / 2) 0) / 2

/-- `np.quantile(value, 0.25, axis=0)`. -/
def colQ1 {m n : ℕ} (A : Mat m n) (j : Fin n) : ℚ := quantile (1/4) (col A j)

/-- `np.quantile(value, 0.75, axis=0)`. -/
def colQ3 {m n : ℕ} (A : Mat m n) (j : Fin n) : ℚ := quantile (3/4) (col A j)

/-- `np.median(value, axis=0)`. -/
def colMedian {m n : ℕ} (A : Mat m n) (j : Fin n) : ℚ := medianList (col A j)

/-- `RobustStandardizer`: holds the construction input. -/
structure RobustStandardizer where
  data_to_stadnardize : Store

namespace RobustStandardizer

/-- The parameter record `{"q1": ..., "median": ..., "q3": ...}` computed by
`init_normalization`. -/
def params (s : RobustStandardizer) (k : String) :
    Option ((n : ℕ) × ((Fin n → ℚ) × (Fin n → ℚ) × (Fin n → ℚ))) :=
  (s.data_to_stadnardize k).map fun v =>
    ⟨v.cols, (colQ1 v.entry, colMedian v.entry, colQ3 v.entry)⟩

/-- `self.data[key] = (value - data_median) / (data_q3 - data_q1)`. -/
def lookup (s : RobustStandardizer) (k : String) : Option RawArr :=
  (s.data_to_stadnardize k).map fun v =>
    ⟨v.rows, v.cols, fun i j =>
      (v.entry i j - colMedian v.entry j) / (colQ3 v.entry j - colQ1 v.entry j)⟩

/-- `normalize(data, key) = (data - median) / (q3 - q1)`. -/
def normalize (s : RobustStandardizer) {p q : ℕ} (x : Mat p q) (k : String) :
    Option (Mat p q) :=
  match s.params k with
  | none => none
  | some ⟨n, (q1, md, q3)⟩ =>
    if h : q = n then
      some fun i j =>
        (x i j - md (Fin.cast h j)) / (q3 (Fin.cast h j) - q1 (Fin.cast h j))
    else none

/-- `denormalize(data, key) = data * (q3 - q1) + median`. -/
def denormalize (s : RobustStandardizer) {p q : ℕ} (y : Mat p q) (k : String) :
    Option (Mat p q) :=
  match s.params k with
  | none => none
  | some ⟨n, (q1, md, q3)⟩ =>
    if h : q = n then
      some fun i j =>
        y i j * (q3 (Fin.cast h j) - q1 (Fin.cast h j)) + md (Fin.cast h j)
    else none

end RobustStandardizer

/-! ### NoneStandardizer (identity) -/

/-- The Python values the variadic `NoneStandardizer` methods can receive and
return: arrays, strings (keys), and tuples of values. -/
inductive PyVal where
  | arr : RawArr → PyVal
  | str : String → PyVal
  | tuple : List PyVal → PyVal

/-- `NoneStandardizer`: holds the construction input. Its
`init_normalization` sets only `_params = {}`. -/
structure NoneStandardizer where
  data_to_stadnardize : Store

namespace NoneStandardizer

/-- `__getitem__`: `init_normalization` never fills `self.data`, which stays
the empty dict created by `__init__`, so every lookup raises `KeyError`. -/
def lookup (_s : NoneStandardizer) (_k : String) : Option RawArr := none

/-- `normalize(*args)`: returns the argument tuple unchanged. -/
def normalize (_s : NoneStandardizer) (args : List PyVal) : PyVal :=
  PyVal.tuple args

/-- `denormalize(*args)`: returns the argument tuple unchanged. -/
def denormalize (_s : NoneStandardizer) (args : List PyVal) : PyVal :=
  PyVal.tuple args

end NoneStandardizer

/-! ### Presentation helpers and concrete instances -/

/-- Flatten a packaged array to a row-major list of lists (for decidable
statements about concrete arrays). -/
def RawArr.toLists (w : RawArr) : List (List ℚ) :=
  List.ofFn fun i => List.ofFn fun j => w.entry i j

/-- Flatten a MinMax parameter record to `(cols, min, max)` as lists. -/
def mmParamsLists (pr : (n : ℕ) × ((Fin n → ℚ) × (Fin n → ℚ))) :
    ℕ × List ℚ × List ℚ :=
  (pr.1, List.ofFn pr.2.1, List.ofFn pr.2.2)

/-- Flatten a Robust parameter record to `(cols, q1, median, q3)` as lists. -/
def rbParamsLists (pr : (n : ℕ) × ((Fin n → ℚ) × (Fin n → ℚ) × (Fin n → ℚ))) :
    ℕ × List ℚ × List ℚ × List ℚ :=
  (pr.1, List.ofFn pr.2.1, List.ofFn pr.2.2.1, List.ofFn pr.2.2.2)

/-- The array `[[1,2],[3,4],[5,6]]` from the spec's concrete scenario. -/
def exMat : Mat 3 2 := ![![1, 2], ![3, 4], ![5, 6]]

/-- The packaged concrete array. -/
def exArr : RawArr := ⟨3, 2, exMat⟩

/-- The dictionary `{"x": [[1,2],[3,4],[5,6]]}` from the concrete scenario. -/
def exStore : Store := fun k => if k = "x" then some exArr else none

/-- `MinMaxStandardizer(x=[[1,2],[3,4],[5,6]])`. -/
def exMinMax : MinMaxStandardizer := ⟨exStore⟩

/-- `NormalStandardizer(x=[[1,2],[3,4],[5,6]])`. -/
def exNormal : NormalStandardizer := ⟨exStore⟩

/-- `RobustStandardizer(x=[[1,2],[3,4],[5,6]])`. -/
def exRobust : RobustStandardizer := ⟨exStore⟩

/-- `NoneStandardizer(x=[[1,2],[3,4],[5,6]])`. -/
def exNone : NoneStandardizer := ⟨exStore⟩

/-- A construction with no keyword arguments at all. -/
def emptyStore : Store := fun _ => none

/-- The single-column array `[[1],[2],[3],[4]]`, whose quartiles exercise
genuine linear interpolation between data points. -/
def exMat4 : Mat 4 1 := ![![1], ![2], ![3], ![4]]

/-- The packaged single-column array. -/
def exArr4 : RawArr := ⟨4, 1, exMat4⟩

/-- The dictionary `{"y": [[1],[2],[3],[4]]}`. -/
def exStore4 : Store := fun k => if k = "y" then some exArr4 else none

/-- `RobustStandardizer(y=[[1],[2],[3],[4]])`. -/
def exRobust4 : RobustStandardizer := ⟨exStore4⟩

/-- A fresh 1-row array of matching column count, fed to normalize in
witnesses. -/
def wMat : Mat 1 2 := ![![10, 20]]

/-! ## Theorems -/

/-- A tuple wrapping a value is never that value (its size is strictly
larger). -/
lemma tuple_singleton_ne (x : PyVal) : PyVal.tuple [x] ≠ x := by
  intro h
  have hs := congrArg (fun v => sizeOf v) h
  simp only [PyVal.tuple.sizeOf_spec, List.cons.sizeOf_spec,
    List.nil.sizeOf_spec] at hs
  omega

/-- Folding `min` over a list never exceeds the start value. -/
lemma foldl_min_le_init (l : List ℚ) (b : ℚ) : l.foldl min b ≤ b := by
  induction l generalizing b with
  | nil => exact le_refl b
  | cons x xs ih => exact (ih (min b x)).trans (min_le_left b x)

/-- Folding `min` over a list never exceeds any member. -/
lemma foldl_min_le_mem (l : List ℚ) (b a : ℚ) (h : a ∈ l) : l.foldl min b ≤ a := by
  induction l generalizing b with
  | nil => cases h
  | cons x xs ih =>
    rcases List.mem_cons.mp h with h1 | h2
    · subst h1
      exact (foldl_min_le_init xs (min b a)).trans (min_le_right b a)
    · exact ih (min b x) h2

/-- Folding `min` over a list lands on the start value or on a member. -/
lemma foldl_min_choice (l : List ℚ) (b : ℚ) :
    l.foldl min b = b ∨ l.foldl min b ∈ l := by
  induction l generalizing b with
  | nil => exact Or.inl rfl
  | cons x xs ih =>
    rw [List.foldl_cons]
    rcases ih (min b x) with h | h
    · rcases min_choice b x with hbx | hbx
      · exact Or.inl (h.trans hbx)
      · exact Or.inr (by rw [h, hbx]; exact List.mem_cons_self x xs)
    · exact Or.inr (List.mem_cons_of_mem x h)

/-- Folding `max` over a list is at least the start value. -/
lemma le_foldl_max_init (l : List ℚ) (b : ℚ) : b ≤ l.foldl max b := by
  induction l generalizing b with
  | nil => exact le_refl b
  | cons x xs ih => exact (le_max_left b x).trans (ih (max b x))

/-- Folding `max` over a list is at least any member. -/
lemma le_foldl_max_mem (l : List ℚ) (b a : ℚ) (h : a ∈ l) : a ≤ l.foldl max b := by
  induction l generalizing b with
  | nil => cases h
  | cons x xs ih =>
    rcases List.mem_cons.mp h with h1 | h2
    · subst h1
      exact (le_max_right b a).trans (le_foldl_max_init xs (max b a))
    · exact ih (max b x) h2

/-- Folding `max` over a list lands on the start value or on a member. -/
lemma foldl_max_choice (l : List ℚ) (b : ℚ) :
    l.foldl max b = b ∨ l.foldl max b ∈ l := by
  induction l generalizing b with
  | nil => exact Or.inl rfl
  | cons x xs ih =>
    rw [List.foldl_cons]
    rcases ih (max b x) with h | h
    · rcases max_choice b x with hbx | hbx
      · exact Or.inl (h.trans hbx)
      · exact Or.inr (by rw [h, hbx]; exact List.mem_cons_self x xs)
    · exact Or.inr (List.mem_cons_of_mem x h)

/-- `vmin` is a lower bound of the list. -/
lemma vmin_le_of_mem {l : List ℚ} {a : ℚ} (h : a ∈ l) : vmin l ≤ a := by
  cases l with
  | nil => cases h
  | cons x xs =>
    rcases List.mem_cons.mp h with h1 | h2
    · subst h1; exact foldl_min_le_init xs a
    · exact foldl_min_le_mem xs x a h2

/-- `vmin` of a nonempty list is a member of the list. -/
lemma vmin_mem {l : List ℚ} (h : l ≠ []) : vmin l ∈ l := by
  cases l with
  | nil => exact absurd rfl h
  | cons x xs =>
    show xs.foldl min x ∈ x :: xs
    rcases foldl_min_choice xs x with h1 | h1
    · rw [h1]; exact List.mem_cons_self x xs
    · exact List.mem_cons_of_mem x h1

/-- `vmax` is an upper bound of the list. -/
lemma le_vmax_of_mem {l : List ℚ} {a : ℚ} (h : a ∈ l) : a ≤ vmax l := by
  cases l with
  | nil => cases h
  | cons x xs =>
    rcases List.mem_cons.mp h with h1 | h2
    · subst h1; exact le_foldl_max_init xs a
    · exact le_foldl_max_mem xs x a h2

/-- `vmax` of a nonempty list is a member of the list. -/
lemma vmax_mem {l : List ℚ} (h : l ≠ []) : vmax l ∈ l := by
  cases l with
  | nil => exact absurd rfl h
  | cons x xs =>
    show xs.foldl max x ∈ x :: xs
    rcases foldl_max_choice xs x with h1 | h1
    · rw [h1]; exact List.mem_cons_self x xs
    · exact List.mem_cons_of_mem x h1

/-- Every entry of a column is a member of that column's list. -/
lemma entry_mem_col {m n : ℕ} (A : Mat m n) (i : Fin m) (j : Fin n) :
    A i j ∈ col A j :=
  (List.mem_ofFn _ _).mpr ⟨i, rfl⟩

/-- A column of an array with at least one row is a nonempty list. -/
lemma col_ne_nil {m n : ℕ} (A : Mat m n) (j : Fin n) (hm : 0 < m) :
    col A j ≠ [] := by
  intro h
  rw [col, List.ofFn_eq_nil_iff] at h
  omega

/-- The computed column minimum bounds every entry of the column. -/
lemma colMin_le {m n : ℕ} (A : Mat m n) (i : Fin m) (j : Fin n) :
    colMin A j ≤ A i j :=
  vmin_le_of_mem (entry_mem_col A i j)

/-- The computed column minimum is attained at some row. -/
lemma colMin_attained {m n : ℕ} (A : Mat m n) (j : Fin n) (hm : 0 < m) :
    ∃ i, A i j = colMin A j := by
  have := vmin_mem (col_ne_nil A j hm)
  rw [col, List.mem_ofFn] at this
  exact this

/-- Every entry of the column bounds the computed column maximum below. -/
lemma le_colMax {m n : ℕ} (A : Mat m n) (i : Fin m) (j : Fin n) :
    A i j ≤ colMax A j :=
  le_vmax_of_mem (entry_mem_col A i j)

/-- The computed column maximum is attained at some row. -/
lemma colMax_attained {m n : ℕ} (A : Mat m n) (j : Fin n) (hm : 0 < m) :
    ∃ i, A i j = colMax A j := by
  have := vmax_mem (col_ne_nil A j hm)
  rw [col, List.mem_ofFn] at this
  exact this

/-- With `key` registered, MinMax `normalize` applies `(x - min) / (max - min)`. -/
lemma minmax_normalize_eq (s : MinMaxStandardizer) (k : String) (v : RawArr)
    (hk : s.data_to_stadnardize k = some v) (p : ℕ) (x : Mat p v.cols) :
    s.normalize x k = some (fun i j =>
      (x i j - colMin v.entry j) / (colMax v.entry j - colMin v.entry j)) := by
  unfold MinMaxStandardizer.normalize MinMaxStandardizer.params
  rw [hk]
  exact dif_pos rfl

/-- With `key` registered, MinMax `denormalize` applies `y * (max - min) + min`. -/
lemma minmax_denormalize_eq (s : MinMaxStandardizer) (k : String) (v : RawArr)
    (hk : s.data_to_stadnardize k = some v) (p : ℕ) (y : Mat p v.cols) :
    s.denormalize y k = some (fun i j =>
      y i j * (colMax v.entry j - colMin v.entry j) + colMin v.entry j) := by
  unfold MinMaxStandardizer.denormalize MinMaxStandardizer.params
  rw [hk]
  exact dif_pos rfl

/-- With `key` registered, `__getitem__` returns the array normalized at
construction. -/
lemma minmax_lookup_eq (s : MinMaxStandardizer) (k : String) (v : RawArr)
    (hk : s.data_to_stadnardize k = some v) :
    s.lookup k = some ⟨v.rows, v.cols, fun i j =>
      (v.entry i j - colMin v.entry j) / (colMax v.entry j - colMin v.entry j)⟩ := by
  unfold MinMaxStandardizer.lookup
  rw [hk]
  rfl

/-- With `key` registered, Normal `normalize` applies `(x - mean) / std`. -/
lemma normal_normalize_eq (s : NormalStandardizer) (k : String) (v : RawArr)
    (hk : s.data_to_stadnardize k = some v) (p : ℕ) (x : RMat p v.cols) :
    s.normalize x k = some (fun i j =>
      (x i j - (colMean v.entry j : ℝ)) / colStd v.entry j) := by
  unfold NormalStandardizer.normalize NormalStandardizer.params
  rw [hk]
  exact dif_pos rfl

/-- With `key` registered, Normal `denormalize` applies `y * std + mean`. -/
lemma normal_denormalize_eq (s : NormalStandardizer) (k : String) (v : RawArr)
    (hk : s.data_to_stadnardize k = some v) (p : ℕ) (y : RMat p v.cols) :
    s.denormalize y k = some (fun i j =>
      y i j * colStd v.entry j + (colMean v.entry j : ℝ)) := by
  unfold NormalStandardizer.denormalize NormalStandardizer.params
  rw [hk]
  exact dif_pos rfl

/-- With `key` registered, `__getitem__` returns the array normalized at
construction. -/
lemma normal_lookup_eq (s : NormalStandardizer) (k : String) (v : RawArr)
    (hk : s.data_to_stadnardize k = some v) :
    s.lookup k = some ⟨v.rows, v.cols, fun i j =>
      ((v.entry i j : ℝ) - (colMean v.entry j : ℝ)) / colStd v.entry j⟩ := by
  unfold NormalStandardizer.lookup
  rw [hk]
  rfl

/-- With `key` registered, Robust `normalize` applies `(x - median) / (q3 - q1)`. -/
lemma robust_normalize_eq (s : RobustStandardizer) (k : String) (v : RawArr)
    (hk : s.data_to_stadnardize k = some v) (p : ℕ) (x : Mat p v.cols) :
    s.normalize x k = some (fun i j =>
      (x i j - colMedian v.entry j) / (colQ3 v.entry j - colQ1 v.entry j)) := by
  unfold RobustStandardizer.normalize RobustStandardizer.params
  rw [hk]
  exact dif_pos rfl

/-- With `key` registered, Robust `denormalize` applies `y * (q3 - q1) + median`. -/
lemma robust_denormalize_eq (s : RobustStandardizer) (k : String) (v : RawArr)
    (hk : s.data_to_stadnardize k = some v) (p : ℕ) (y : Mat p v.cols) :
    s.denormalize y k = some (fun i j =>
      y i j * (colQ3 v.entry j - colQ1 v.entry j) + colMedian v.entry j) := by
  unfold RobustStandardizer.denormalize RobustStandardizer.params
  rw [hk]
  exact dif_pos rfl

/-- With `key` registered, `__getitem__` returns the array normalized at
construction. -/
lemma robust_lookup_eq (s : RobustStandardizer) (k : String) (v : RawArr)
    (hk : s.data_to_stadnardize k = some v) :
    s.lookup k = some ⟨v.rows, v.cols, fun i j =>
      (v.entry i j - colMedian v.entry j) / (colQ3 v.entry j - colQ1 v.entry j)⟩ := by
  unfold RobustStandardizer.lookup
  rw [hk]
  rfl

/-- Claim C9: for the Identity (None) variant, `normalize(a, b, c)` returns
exactly the tuple `(a, b, c)` for any three arguments, `denormalize`
behaves identically, and for any argument list whatsoever both return the
argument tuple unchanged. -/
theorem claim_C9_identity_passthrough (s : NoneStandardizer) (a b c : PyVal)
    (args : List PyVal) :
    s.normalize [a, b, c] = PyVal.tuple [a, b, c] ∧
    s.denormalize [a, b, c] = PyVal.tuple [a, b, c] ∧
    s.normalize args = PyVal.tuple args ∧
    s.denormalize args = PyVal.tuple args :=
  ⟨rfl, rfl, rfl, rfl⟩

/-- Claim C10: for the Identity (None) variant, `normalize` and
`denormalize` called with exactly one argument `x` return the one-element
tuple `(x,)`, which is never `x` itself. -/
theorem claim_C10_identity_singleton (s : NoneStandardizer) (x : PyVal) :
    s.normalize [x] = PyVal.tuple [x] ∧
    s.denormalize [x] = PyVal.tuple [x] ∧
    PyVal.tuple [x] ≠ x :=
  ⟨rfl, rfl, tuple_singleton_ne x⟩

/-- Claim C3: with a key that was not supplied at construction, normalize
and denormalize surface the unknown-key error (`none`, a Python `KeyError`)
for the MinMax, Normal and Robust variants, while the Identity variant
ignores keys entirely and never fails: it returns its argument tuple. -/
theorem claim_C3_unknown_key (sM : MinMaxStandardizer) (sN : NormalStandardizer)
    (sR : RobustStandardizer) (sI : NoneStandardizer) (k : String)
    (hM : sM.data_to_stadnardize k = none)
    (hN : sN.data_to_stadnardize k = none)
    (hR : sR.data_to_stadnardize k = none)
    (p q : ℕ) (x : Mat p q) (xr : RMat p q) (args : List PyVal) :
    sM.normalize x k = none ∧ sM.denormalize x k = none ∧
    sN.normalize xr k = none ∧ sN.denormalize xr k = none ∧
    sR.normalize x k = none ∧ sR.denormalize x k = none ∧
    sI.normalize args = PyVal.tuple args ∧
    sI.denormalize args = PyVal.tuple args := by
  refine ⟨?_, ?_, ?_, ?_, ?_, ?_, rfl, rfl⟩ <;>
    simp [MinMaxStandardizer.normalize, MinMaxStandardizer.denormalize,
      MinMaxStandardizer.params, NormalStandardizer.normalize,
      NormalStandardizer.denormalize, NormalStandardizer.params,
      RobustStandardizer.normalize, RobustStandardizer.denormalize,
      RobustStandardizer.params, hM, hN, hR]

/-- Witness for C3: the standardizers built with no keyword arguments have
no key `"x"`, and every operation reports it. -/
theorem claim_C3_unknown_key_witness :
    emptyStore "x" = none ∧
    ((⟨emptyStore⟩ : MinMaxStandardizer).normalize wMat "x" = none ∧
     (⟨emptyStore⟩ : MinMaxStandardizer).denormalize wMat "x" = none ∧
     (⟨emptyStore⟩ : NormalStandardizer).normalize (toR wMat) "x" = none ∧
     (⟨emptyStore⟩ : NormalStandardizer).denormalize (toR wMat) "x" = none ∧
     (⟨emptyStore⟩ : RobustStandardizer).normalize wMat "x" = none ∧
     (⟨emptyStore⟩ : RobustStandardizer).denormalize wMat "x" = none ∧
     (⟨emptyStore⟩ : NoneStandardizer).normalize [PyVal.str "x"] =
       PyVal.tuple [PyVal.str "x"] ∧
     (⟨emptyStore⟩ : NoneStandardizer).denormalize [PyVal.str "x"] =
       PyVal.tuple [PyVal.str "x"]) :=
  ⟨rfl, claim_C3_unknown_key ⟨emptyStore⟩ ⟨emptyStore⟩ ⟨emptyStore⟩
    ⟨emptyStore⟩ "x" rfl rfl rfl 1 2 wMat (toR wMat) [PyVal.str "x"]⟩

/-- Concrete evaluation: the array stored for `"x"` by the MinMax instance,
as a list of rows. -/
lemma exMinMax_lookup_lists :
    (exMinMax.lookup "x").map RawArr.toLists =
      some [[0, 0], [1/2, 1/2], [1, 1]] := by
  simp [MinMaxStandardizer.lookup, exMinMax, exStore, exArr, RawArr.toLists,
    colMin, colMax, col, vmin, vmax, exMat, List.ofFn_succ, min_def, max_def]
  norm_num

/-- Claim C2: for the MinMax variant, construction stores per key the
column-wise min and max of the registered array (the stored vectors bound
every entry and are attained), normalize returns `(x - min) / (max - min)`,
denormalize returns `y * (max - min) + min`, and registering key `"x"` with
rows `[[1,2],[3,4],[5,6]]` yields params `min = [1,2]`, `max = [5,6]` and
normalized rows `[0,0]`, `[1/2,1/2]`, `[1,1]`. -/
theorem claim_C2_minmax (s : MinMaxStandardizer) (k : String) (v : RawArr)
    (hk : s.data_to_stadnardize k = some v) (hm : 0 < v.rows)
    (p : ℕ) (x y : Mat p v.cols) :
    s.params k = some ⟨v.cols, (colMin v.entry, colMax v.entry)⟩ ∧
    (∀ j, (∀ i, colMin v.entry j ≤ v.entry i j) ∧
      ∃ i, v.entry i j = colMin v.entry j) ∧
    (∀ j, (∀ i, v.entry i j ≤ colMax v.entry j) ∧
      ∃ i, v.entry i j = colMax v.entry j) ∧
    s.normalize x k = some (fun i j =>
      (x i j - colMin v.entry j) / (colMax v.entry j - colMin v.entry j)) ∧
    s.denormalize y k = some (fun i j =>
      y i j * (colMax v.entry j - colMin v.entry j) + colMin v.entry j) ∧
    (exMinMax.params "x").map mmParamsLists = some (2, [1, 2], [5, 6]) ∧
    (exMinMax.lookup "x").map RawArr.toLists =
      some [[0, 0], [1/2, 1/2], [1, 1]] := by
  refine ⟨?_, ?_, ?_, minmax_normalize_eq s k v hk p x,
    minmax_denormalize_eq s k v hk p y, by decide, exMinMax_lookup_lists⟩
  · unfold MinMaxStandardizer.params
    rw [hk]
    rfl
  · exact fun j => ⟨fun i => colMin_le v.entry i j, colMin_attained v.entry j hm⟩
  · exact fun j => ⟨fun i => le_colMax v.entry i j, colMax_attained v.entry j hm⟩

/-- Witness for C2: the concrete scenario instantiated; the registered key
and row count evaluate, and the instantiated theorem yields the concrete
parameter record. -/
theorem claim_C2_minmax_witness :
    exStore "x" = some exArr ∧ 0 < exArr.rows ∧
    (exMinMax.params "x").map mmParamsLists = some (2, [1, 2], [5, 6]) :=
  ⟨rfl, by decide,
    (claim_C2_minmax exMinMax "x" exArr rfl (by decide) 1 wMat wMat).2.2.2.2.2.1⟩

/-- Claim C8: for the MinMax variant, when every column of the registered
array has its max strictly above its min, every element of the stored
normalized array returned by lookup lies in `[0, 1]` (exact rationals). -/
theorem claim_C8_minmax_range (s : MinMaxStandardizer) (k : String) (v : RawArr)
    (hk : s.data_to_stadnardize k = some v)
    (hnd : ∀ j, colMin v.entry j < colMax v.entry j)
    (L : List (List ℚ)) (hL : (s.lookup k).map RawArr.toLists = some L) :
    ∀ r ∈ L, ∀ a ∈ r, 0 ≤ a ∧ a ≤ 1 := by
  rw [minmax_lookup_eq s k v hk, Option.map_some', Option.some.injEq] at hL
  subst hL
  intro r hr a ha
  rw [RawArr.toLists, List.mem_ofFn] at hr
  obtain ⟨i, rfl⟩ := hr
  rw [List.mem_ofFn] at ha
  obtain ⟨j, rfl⟩ := ha
  have hden : (0 : ℚ) < colMax v.entry j - colMin v.entry j :=
    sub_pos.mpr (hnd j)
  constructor
  · exact div_nonneg (sub_nonneg.mpr (colMin_le v.entry i j)) hden.le
  · rw [div_le_one hden]
    exact sub_le_sub_right (le_colMax v.entry i j) _

/-- Witness for C8: on the concrete store, both columns are non-degenerate
and the stored normalized entry `1/2` lies in `[0, 1]`. -/
theorem claim_C8_minmax_range_witness :
    exStore "x" = some exArr ∧
    (0 ≤ (1 : ℚ)/2 ∧ (1 : ℚ)/2 ≤ 1) :=
  ⟨rfl,
    claim_C8_minmax_range exMinMax "x" exArr rfl (by decide)
      [[0, 0], [1/2, 1/2], [1, 1]] exMinMax_lookup_lists
      [1/2, 1/2] (by norm_num) (1/2) (by norm_num)⟩

/-- Both columns of the concrete array have positive population variance. -/
lemma exMat_colVar_pos : ∀ j : Fin 2, 0 < colVar exMat j := by
  intro j
  fin_cases j <;>
    norm_num [colVar, colMean, vmean, col, exMat, List.ofFn_succ]

/-- Both columns of the concrete array have nonzero standard deviation. -/
lemma exMat_colStd_ne : ∀ j : Fin 2, colStd exMat j ≠ 0 := fun j =>
  ne_of_gt (Real.sqrt_pos.mpr (by exact_mod_cast exMat_colVar_pos j))

/-- Both columns of the concrete array have distinct quartiles. -/
lemma exMat_q1_ne_q3 : ∀ j : Fin 2, colQ1 exMat j ≠ colQ3 exMat j := by
  intro j
  fin_cases j <;>
    norm_num [colQ1, colQ3, quantile, col, exMat, List.ofFn_succ,
      List.insertionSort, List.orderedInsert]

/-- Claim C1 (amended): for the MinMax, Zscore and Robust variants, for
every registered key whose scale denominator is nonzero in every column,
`denormalize(normalize(x, k), k)` returns exactly `x` for every array `x`
of matching column count (exact over rational, resp. real, arithmetic).
The Identity variant is excluded: its composite wraps the input in nested
tuples instead of returning it (see the counterexample). -/
theorem claim_C1_roundtrip
    (sM : MinMaxStandardizer) (sN : NormalStandardizer) (sR : RobustStandardizer)
    (k : String) (vM vN vR : RawArr)
    (hM : sM.data_to_stadnardize k = some vM)
    (hN : sN.data_to_stadnardize k = some vN)
    (hR : sR.data_to_stadnardize k = some vR)
    (hMd : ∀ j, colMin vM.entry j ≠ colMax vM.entry j)
    (hNd : ∀ j, colStd vN.entry j ≠ 0)
    (hRd : ∀ j, colQ1 vR.entry j ≠ colQ3 vR.entry j)
    (p : ℕ) (xM : Mat p vM.cols) (xN : RMat p vN.cols) (xR : Mat p vR.cols) :
    ((sM.normalize xM k).bind fun y => sM.denormalize y k) = some xM ∧
    ((sN.normalize xN k).bind fun y => sN.denormalize y k) = some xN ∧
    ((sR.normalize xR k).bind fun y => sR.denormalize y k) = some xR := by
  refine ⟨?_, ?_, ?_⟩
  · rw [minmax_normalize_eq sM k vM hM p xM, Option.some_bind,
      minmax_denormalize_eq sM k vM hM p _]
    refine congrArg some (funext fun i => funext fun j => ?_)
    have hd : colMax vM.entry j - colMin vM.entry j ≠ 0 :=
      sub_ne_zero_of_ne (hMd j).symm
    field_simp
  · rw [normal_normalize_eq sN k vN hN p xN, Option.some_bind,
      normal_denormalize_eq sN k vN hN p _]
    refine congrArg some (funext fun i => funext fun j => ?_)
    have hd : colStd vN.entry j ≠ 0 := hNd j
    field_simp
  · rw [robust_normalize_eq sR k vR hR p xR, Option.some_bind,
      robust_denormalize_eq sR k vR hR p _]
    refine congrArg some (funext fun i => funext fun j => ?_)
    have hd : colQ3 vR.entry j - colQ1 vR.entry j ≠ 0 :=
      sub_ne_zero_of_ne (hRd j).symm
    field_simp

/-- Counterexample to C1 as stated: the Identity variant is among the
supported variants it quantifies over, yet with the key `"x"` registered
and an array of matching shape, `denormalize(normalize(x, "x"), "x")`
returns a nested tuple, not `x`. -/
theorem claim_C1_identity_counterexample :
    exNone.data_to_stadnardize "x" = some exArr ∧
    exNone.denormalize [exNone.normalize [PyVal.arr exArr, PyVal.str "x"],
      PyVal.str "x"] ≠ PyVal.arr exArr :=
  ⟨rfl, fun h => PyVal.noConfusion h⟩

/-- Witness for the amended C1: the three roundtrips on the concrete store,
at a fresh one-row array. -/
theorem claim_C1_roundtrip_witness :
    exStore "x" = some exArr ∧
    ((exMinMax.normalize wMat "x").bind (fun y => exMinMax.denormalize y "x") =
      some wMat ∧
    (exNormal.normalize (toR wMat) "x").bind
      (fun y => exNormal.denormalize y "x") = some (toR wMat) ∧
    (exRobust.normalize wMat "x").bind (fun y => exRobust.denormalize y "x") =
      some wMat) :=
  ⟨rfl, claim_C1_roundtrip exMinMax exNormal exRobust "x" exArr exArr exArr
    rfl rfl rfl (by decide) exMat_colStd_ne exMat_q1_ne_q3
    1 wMat (toR wMat) wMat⟩

/-- Claim C6 (amended): for the MinMax, Zscore and Robust variants,
`lookup(k)` returns exactly `normalize(original_array_for_k, k)` for every
registered key `k`; the Identity variant is excluded: its
`init_normalization` never fills `self.data`, so its lookup fails for every
key. -/
theorem claim_C6_lookup_normalize
    (sM : MinMaxStandardizer) (sN : NormalStandardizer) (sR : RobustStandardizer)
    (sI : NoneStandardizer) (k : String) (vM vN vR : RawArr)
    (hM : sM.data_to_stadnardize k = some vM)
    (hN : sN.data_to_stadnardize k = some vN)
    (hR : sR.data_to_stadnardize k = some vR) :
    sM.lookup k =
      (sM.normalize vM.entry k).map (fun N => ⟨vM.rows, vM.cols, N⟩) ∧
    sN.lookup k =
      (sN.normalize (toR vN.entry) k).map (fun N => ⟨vN.rows, vN.cols, N⟩) ∧
    sR.lookup k =
      (sR.normalize vR.entry k).map (fun N => ⟨vR.rows, vR.cols, N⟩) ∧
    ∀ k2, sI.lookup k2 = none := by
  refine ⟨?_, ?_, ?_, fun k2 => rfl⟩
  · rw [minmax_lookup_eq sM k vM hM,
      minmax_normalize_eq sM k vM hM vM.rows vM.entry,
      Option.map_some']
  · rw [normal_lookup_eq sN k vN hN,
      normal_normalize_eq sN k vN hN vN.rows (toR vN.entry),
      Option.map_some']
    rfl
  · rw [robust_lookup_eq sR k vR hR,
      robust_normalize_eq sR k vR hR vR.rows vR.entry,
      Option.map_some']

/-- Counterexample to C6 as stated: it quantifies over every variant, but
for the Identity variant with key `"x"` registered, lookup raises
`KeyError` (the data dict is never filled), so it cannot equal the value
`normalize(original, "x")` returns. -/
theorem claim_C6_identity_counterexample :
    exNone.data_to_stadnardize "x" = some exArr ∧
    exNone.lookup "x" = none ∧
    exNone.normalize [PyVal.arr exArr, PyVal.str "x"] =
      PyVal.tuple [PyVal.arr exArr, PyVal.str "x"] :=
  ⟨rfl, rfl, rfl⟩

/-- Witness for the amended C6: on the concrete store, the MinMax lookup
agrees with normalize applied to the registered array. -/
theorem claim_C6_lookup_normalize_witness :
    exStore "x" = some exArr ∧
    exMinMax.lookup "x" =
      (exMinMax.normalize exArr.entry "x").map
        (fun N => ⟨exArr.rows, exArr.cols, N⟩) :=
  ⟨rfl, (claim_C6_lookup_normalize exMinMax exNormal exRobust exNone "x"
    exArr exArr exArr rfl rfl rfl).1⟩

/-- Claim C7 (amended): for the MinMax, Zscore and Robust variants, lookup
returns the stored normalized array exactly when the key was supplied at
construction and fails with a key-not-found condition exactly when it was
not; the Identity variant is excluded: its lookup fails for every key,
registered or not. -/
theorem claim_C7_lookup_contract
    (sM : MinMaxStandardizer) (sN : NormalStandardizer) (sR : RobustStandardizer)
    (sI : NoneStandardizer) (k km : String) (vM vN vR : RawArr)
    (hM : sM.data_to_stadnardize k = some vM)
    (hN : sN.data_to_stadnardize k = some vN)
    (hR : sR.data_to_stadnardize k = some vR)
    (hMm : sM.data_to_stadnardize km = none)
    (hNm : sN.data_to_stadnardize km = none)
    (hRm : sR.data_to_stadnardize km = none) :
    sM.lookup k = some ⟨vM.rows, vM.cols, fun i j =>
      (vM.entry i j - colMin vM.entry j) /
        (colMax vM.entry j - colMin vM.entry j)⟩ ∧
    sM.lookup km = none ∧
    sN.lookup k = some ⟨vN.rows, vN.cols, fun i j =>
      ((vN.entry i j : ℝ) - (colMean vN.entry j : ℝ)) / colStd vN.entry j⟩ ∧
    sN.lookup km = none ∧
    sR.lookup k = some ⟨vR.rows, vR.cols, fun i j =>
      (vR.entry i j - colMedian vR.entry j) /
        (colQ3 vR.entry j - colQ1 vR.entry j)⟩ ∧
    sR.lookup km = none ∧
    ∀ k2, sI.lookup k2 = none := by
  refine ⟨minmax_lookup_eq sM k vM hM, ?_, normal_lookup_eq sN k vN hN, ?_,
    robust_lookup_eq sR k vR hR, ?_, fun k2 => rfl⟩
  · unfold MinMaxStandardizer.lookup
    rw [hMm]
    rfl
  · unfold NormalStandardizer.lookup
    rw [hNm]
    rfl
  · unfold RobustStandardizer.lookup
    rw [hRm]
    rfl

/-- Counterexample to C7 as stated: for the Identity variant the key `"x"`
is supplied at construction, yet lookup fails with the key-not-found
condition. -/
theorem claim_C7_identity_counterexample :
    exNone.data_to_stadnardize "x" = some exArr ∧ exNone.lookup "x" = none :=
  ⟨rfl, rfl⟩

/-- Witness for the amended C7: on the concrete store, the registered key
`"x"` is found and the unregistered key `"z"` is reported missing. -/
theorem claim_C7_lookup_contract_witness :
    exStore "x" = some exArr ∧ exStore "z" = none ∧
    exMinMax.lookup "z" = none :=
  ⟨rfl, rfl, (claim_C7_lookup_contract exMinMax exNormal exRobust exNone
    "x" "z" exArr exArr exArr rfl rfl rfl rfl rfl rfl).2.1⟩

/-- The population variance is a mean of squares, hence nonnegative. -/
lemma colVar_nonneg {m n : ℕ} (A : Mat m n) (j : Fin n) : 0 ≤ colVar A j := by
  unfold colVar vmean
  apply div_nonneg
  · apply List.sum_nonneg
    intro b hb
    rw [List.mem_map] at hb
    obtain ⟨a, _, rfl⟩ := hb
    exact sq_nonneg _
  · exact_mod_cast Nat.zero_le _

/-- The column mean is the sum over rows divided by the row count. -/
lemma colMean_eq {m n : ℕ} (A : Mat m n) (j : Fin n) :
    colMean A j = (∑ i, A i j) / m := by
  rw [colMean, vmean, col, List.sum_ofFn, List.length_ofFn]

/-- The column variance is the mean of the squared deviations (division by
the row count, i.e. `ddof = 0`). -/
lemma colVar_eq {m n : ℕ} (A : Mat m n) (j : Fin n) :
    colVar A j = (∑ i, (A i j - colMean A j) ^ 2) / m := by
  rw [colVar, vmean, col, List.map_ofFn, List.sum_ofFn, List.length_ofFn]
  rfl

/-- Claim C4: for the Zscore (Normal) variant, construction stores per key
the column-wise mean (sum over rows divided by row count) and the
population standard deviation with `ddof = 0` (the nonnegative square root
of the mean of squared deviations), normalize returns `(x - mean) / std`,
and denormalize returns `y * std + mean`. -/
theorem claim_C4_normal (s : NormalStandardizer) (k : String) (v : RawArr)
    (hk : s.data_to_stadnardize k = some v)
    (p : ℕ) (x y : RMat p v.cols) :
    s.params k = some ⟨v.cols, (colMean v.entry, colStd v.entry)⟩ ∧
    (∀ j, colMean v.entry j = (∑ i, v.entry i j) / v.rows) ∧
    (∀ j, 0 ≤ colStd v.entry j ∧
      colStd v.entry j ^ 2 =
        (∑ i, ((v.entry i j : ℝ) - (colMean v.entry j : ℝ)) ^ 2) / v.rows) ∧
    s.normalize x k = some (fun i j =>
      (x i j - (colMean v.entry j : ℝ)) / colStd v.entry j) ∧
    s.denormalize y k = some (fun i j =>
      y i j * colStd v.entry j + (colMean v.entry j : ℝ)) := by
  refine ⟨?_, fun j => colMean_eq v.entry j, ?_,
    normal_normalize_eq s k v hk p x, normal_denormalize_eq s k v hk p y⟩
  · unfold NormalStandardizer.params
    rw [hk]
    rfl
  · intro j
    refine ⟨Real.sqrt_nonneg _, ?_⟩
    rw [colStd, Real.sq_sqrt (by exact_mod_cast colVar_nonneg v.entry j),
      colVar_eq]
    push_cast
    ring

/-- Witness for C4: on the concrete store, the parameter record is the
column mean paired with the column standard deviation. -/
theorem claim_C4_normal_witness :
    exStore "x" = some exArr ∧
    exNormal.params "x" =
      some ⟨exArr.cols, (colMean exArr.entry, colStd exArr.entry)⟩ :=
  ⟨rfl, (claim_C4_normal exNormal "x" exArr rfl 1 (toR wMat) (toR wMat)).1⟩

/-- On nonempty data, `np.median` coincides with the 50th percentile under
the same linear-interpolation rule as `np.quantile`. -/
lemma medianList_eq_quantile_half (l : List ℚ) (hl : l ≠ []) :
    medianList l = quantile (1/2) l := by
  have hn : 0 < l.length := List.length_pos.mpr hl
  have hs : (l.insertionSort (· ≤ ·)).length = l.length :=
    List.length_insertionSort _ l
  rcases Nat.even_or_odd l.length with he | ho
  · obtain ⟨m, hm⟩ := he
    have hm1 : 1 ≤ m := by omega
    simp only [medianList, quantile, hm]
    rw [if_neg (by omega)]
    have h2 : (m + m) / 2 = m := by omega
    rw [h2]
    have hfl : ⌊(1/2 : ℚ) * (((m + m : ℕ) : ℚ) - 1)⌋ = (m : ℤ) - 1 := by
      rw [Int.floor_eq_iff]
      constructor
      · push_cast
        linarith
      · push_cast
        linarith
    rw [hfl]
    have ht : ((m : ℤ) - 1).toNat = m - 1 := by omega
    rw [ht]
    have h3 : m - 1 + 1 = m := by omega
    rw [h3]
    have hglt : m < (l.insertionSort (· ≤ ·)).length := by omega
    have hb : (l.insertionSort (· ≤ ·)).getD m
        ((l.insertionSort (· ≤ ·)).getD (m - 1) 0) =
        (l.insertionSort (· ≤ ·)).getD m 0 := by
      rw [List.getD_eq_getElem _ _ hglt, List.getD_eq_getElem _ _ hglt]
    rw [hb]
    have hc : ((m - 1 : ℕ) : ℚ) = (m : ℚ) - 1 := by
      push_cast [hm1]
      ring
    rw [hc]
    push_cast
    ring
  · obtain ⟨m, hm⟩ := ho
    simp only [medianList, quantile, hm]
    rw [if_pos (by omega)]
    have h2 : (2 * m + 1) / 2 = m := by omega
    rw [h2]
    have hfl : ⌊(1/2 : ℚ) * (((2 * m + 1 : ℕ) : ℚ) - 1)⌋ = (m : ℤ) := by
      have hv : (1/2 : ℚ) * (((2 * m + 1 : ℕ) : ℚ) - 1) = (m : ℚ) := by
        push_cast
        ring
      rw [hv]
      exact Int.floor_natCast m
    rw [hfl]
    have ht : ((m : ℤ)).toNat = m := by omega
    rw [ht]
    have hg : (1/2 : ℚ) * (((2 * m + 1 : ℕ) : ℚ) - 1) - (m : ℚ) = 0 := by
      push_cast
      ring
    rw [hg]
    ring

/-- Concrete evaluation: the quartile parameters stored for
`[[1],[2],[3],[4]]` interpolate strictly between data points. -/
lemma exRobust4_params_lists :
    (exRobust4.params "y").map rbParamsLists =
      some (1, [7/4], [5/2], [13/4]) := by
  simp [RobustStandardizer.params, exRobust4, exStore4, exArr4, rbParamsLists,
    colQ1, colQ3, colMedian, quantile, medianList, col, exMat4,
    List.ofFn_succ, List.insertionSort, List.orderedInsert]
  norm_num [show Int.toNat 0 = 0 from rfl, show Int.toNat 1 = 1 from rfl,
    show Int.toNat 2 = 2 from rfl, List.getElem_cons_zero,
    List.getElem_cons_succ]

/-- A fresh one-row single-column array fed to the Robust normalize in the
witness. -/
def wMat1 : Mat 1 1 := ![![7]]

/-- Claim C5: for the Robust variant, construction stores per key the
column-wise 25th percentile, median and 75th percentile computed with
linear interpolation between discrete data points (the median agrees with
the 50th percentile under the same rule), normalize returns
`(x - median) / (q3 - q1)`, denormalize returns `y * (q3 - q1) + median`,
and on the registered column `[1,2,3,4]` the stored parameters are
`q1 = 7/4`, `median = 5/2`, `q3 = 13/4`. -/
theorem claim_C5_robust (s : RobustStandardizer) (k : String) (v : RawArr)
    (hk : s.data_to_stadnardize k = some v) (hm : 0 < v.rows)
    (p : ℕ) (x y : Mat p v.cols) :
    s.params k =
      some ⟨v.cols, (colQ1 v.entry, colMedian v.entry, colQ3 v.entry)⟩ ∧
    (∀ j, colQ1 v.entry j = quantile (1/4) (col v.entry j)) ∧
    (∀ j, colMedian v.entry j = quantile (1/2) (col v.entry j)) ∧
    (∀ j, colQ3 v.entry j = quantile (3/4) (col v.entry j)) ∧
    s.normalize x k = some (fun i j =>
      (x i j - colMedian v.entry j) / (colQ3 v.entry j - colQ1 v.entry j)) ∧
    s.denormalize y k = some (fun i j =>
      y i j * (colQ3 v.entry j - colQ1 v.entry j) + colMedian v.entry j) ∧
    (exRobust4.params "y").map rbParamsLists =
      some (1, [7/4], [5/2], [13/4]) := by
  refine ⟨?_, fun j => rfl,
    fun j => medianList_eq_quantile_half _ (col_ne_nil v.entry j hm),
    fun j => rfl, robust_normalize_eq s k v hk p x,
    robust_denormalize_eq s k v hk p y, exRobust4_params_lists⟩
  unfold RobustStandardizer.params
  rw [hk]
  rfl

/-- Witness for C5: the single-column store instantiated; the stored
quartiles evaluate to the interpolated values. -/
theorem claim_C5_robust_witness :
    exStore4 "y" = some exArr4 ∧ 0 < exArr4.rows ∧
    (exRobust4.params "y").map rbParamsLists =
      some (1, [7/4], [5/2], [13/4]) :=
  ⟨rfl, by decide,
    (claim_C5_robust exRobust4 "y" exArr4 rfl (by decide)
      1 wMat1 wMat1).2.2.2.2.2.2⟩

end Scalers
